import Mathlib

/-!
Shallow embedding of `src/kilo.c` (a minimal terminal text viewer) and
verification of its specification claims.

Conventions:
* Bytes are modelled as `Nat` (ASCII codes), so e.g. the escape byte `\x1b`
  is `27`, `'['` is `91`, `'~'` is `126`.
* The C `int` fields of `struct editorConfig` (`cx`, `cy`, `screenrows`,
  `screencols`) are modelled as `Int`.
* Terminal input is a finite list of read events: each `read` either yields a
  byte or times out (`VTIME`-bounded read returning 0). The end of the list
  means no byte ever arrives again, so a non-retrying read behaves like a
  timeout there.
* Output is modelled by the lists of bytes passed to `write`; a function that
  writes returns the list of its write calls (each one write syscall).
-/

namespace Kilo

/-- One attempted 1-byte `read` on the raw-mode terminal: either a byte
arrives, or the `VTIME` timeout elapses with no data. -/
inductive ReadEvent where
  | timeout
  | byte (b : Nat)
deriving DecidableEq

/-- The decoded key value returned by `editorReadKey`: either a literal byte
(the C `char` branch, including the escape byte 27 itself) or one of the
`editorKey` enum values (`ARROW_LEFT` .. `PAGE_DOWN`). -/
inductive Key where
  | char (c : Nat)
  | arrowLeft
  | arrowRight
  | arrowUp
  | arrowDown
  | delKey
  | homeKey
  | endKey
  | pageUp
  | pageDown
deriving DecidableEq

/-- A single non-retrying `read(STDIN_FILENO, &c, 1)`: returns the byte if one
arrives, `none` on timeout (the C call returning `!= 1`), together with the
rest of the input. -/
def readByte : List ReadEvent → Option Nat × List ReadEvent
  | [] => (none, [])
  | .timeout :: r => (none, r)
  | .byte b :: r => (some b, r)

/-- The `switch (seq[1])` for `ESC [ <digit> ~` sequences in `editorReadKey`:
`'1'`→Home, `'3'`→Delete, `'4'`→End, `'5'`→PageUp, `'6'`→PageDown,
`'7'`→Home, `'8'`→End; any other digit falls through to `return '\x1b'`. -/
def tildeKey (d : Nat) : Key :=
  if d = 49 then .homeKey
  else if d = 51 then .delKey
  else if d = 52 then .endKey
  else if d = 53 then .pageUp
  else if d = 54 then .pageDown
  else if d = 55 then .homeKey
  else if d = 56 then .endKey
  else .char 27

/-- The `switch (seq[1])` for `ESC [ <letter>` sequences in `editorReadKey`:
`A`→Up, `B`→Down, `C`→Right, `D`→Left, `H`→Home, `F`→End; anything else
falls through to `return '\x1b'`. -/
def letterKey (b : Nat) : Key :=
  if b = 65 then .arrowUp
  else if b = 66 then .arrowDown
  else if b = 67 then .arrowRight
  else if b = 68 then .arrowLeft
  else if b = 72 then .homeKey
  else if b = 70 then .endKey
  else .char 27

/-- The `switch (seq[1])` for `ESC O <letter>` sequences in `editorReadKey`:
`H`→Home, `F`→End; anything else falls through to `return '\x1b'`. -/
def oKey (b : Nat) : Key :=
  if b = 72 then .homeKey
  else if b = 70 then .endKey
  else .char 27

/-- The escape-sequence part of `editorReadKey` (everything inside
`if (c == '\x1b')`): the two follow-up reads time out (returning the lone
escape byte as `Key.char 27`) or select the `[`/`O` decoding branches. -/
def readEscape (l : List ReadEvent) : Key × List ReadEvent :=
  match readByte l with
  | (none, r0) => (.char 27, r0)
  | (some s0, r0) =>
    match readByte r0 with
    | (none, r1) => (.char 27, r1)
    | (some s1, r1) =>
      if s0 = 91 then
        if 48 ≤ s1 ∧ s1 ≤ 57 then
          match readByte r1 with
          | (none, r2) => (.char 27, r2)
          | (some s2, r2) =>
            if s2 = 126 then (tildeKey s1, r2) else (.char 27, r2)
        else (letterKey s1, r1)
      else if s0 = 79 then (oKey s1, r1)
      else (.char 27, r1)

/-- `editorReadKey`: the initial `while ((nread = read(...)) != 1)` loop
retries through timeouts until a byte arrives (`none` when the input list is
exhausted, i.e. the call would block forever), then decodes escape
sequences. Returns the key together with the unconsumed input. -/
def editorReadKey : List ReadEvent → Option (Key × List ReadEvent)
  | [] => none
  | .timeout :: r => editorReadKey r
  | .byte c :: r =>
    if c = 27 then some (readEscape r) else some (.char c, r)

/-- C1: for every input stream beginning with a recognized escape sequence,
`editorReadKey` returns the mapped key event and consumes exactly the stated
number of bytes (the remainder `rest` is returned untouched): `ESC [ <digit> ~`
with digit in {1,3,4,5,6,7,8} maps to Home/Delete/End/PageUp/PageDown/Home/End
consuming 4 bytes; `ESC [ <letter>` with letter in {A,B,C,D,H,F} maps to
ArrowUp/ArrowDown/ArrowRight/ArrowLeft/Home/End consuming 3 bytes; and
`ESC O H` / `ESC O F` map to Home / End. -/
theorem editorReadKey_escape_sequences (rest : List ReadEvent) :
    editorReadKey (.byte 27 :: .byte 91 :: .byte 49 :: .byte 126 :: rest)
      = some (.homeKey, rest)
    ∧ editorReadKey (.byte 27 :: .byte 91 :: .byte 51 :: .byte 126 :: rest)
      = some (.delKey, rest)
    ∧ editorReadKey (.byte 27 :: .byte 91 :: .byte 52 :: .byte 126 :: rest)
      = some (.endKey, rest)
    ∧ editorReadKey (.byte 27 :: .byte 91 :: .byte 53 :: .byte 126 :: rest)
      = some (.pageUp, rest)
    ∧ editorReadKey (.byte 27 :: .byte 91 :: .byte 54 :: .byte 126 :: rest)
      = some (.pageDown, rest)
    ∧ editorReadKey (.byte 27 :: .byte 91 :: .byte 55 :: .byte 126 :: rest)
      = some (.homeKey, rest)
    ∧ editorReadKey (.byte 27 :: .byte 91 :: .byte 56 :: .byte 126 :: rest)
      = some (.endKey, rest)
    ∧ editorReadKey (.byte 27 :: .byte 91 :: .byte 65 :: rest)
      = some (.arrowUp, rest)
    ∧ editorReadKey (.byte 27 :: .byte 91 :: .byte 66 :: rest)
      = some (.arrowDown, rest)
    ∧ editorReadKey (.byte 27 :: .byte 91 :: .byte 67 :: rest)
      = some (.arrowRight, rest)
    ∧ editorReadKey (.byte 27 :: .byte 91 :: .byte 68 :: rest)
      = some (.arrowLeft, rest)
    ∧ editorReadKey (.byte 27 :: .byte 91 :: .byte 72 :: rest)
      = some (.homeKey, rest)
    ∧ editorReadKey (.byte 27 :: .byte 91 :: .byte 70 :: rest)
      = some (.endKey, rest)
    ∧ editorReadKey (.byte 27 :: .byte 79 :: .byte 72 :: rest)
      = some (.homeKey, rest)
    ∧ editorReadKey (.byte 27 :: .byte 79 :: .byte 70 :: rest)
      = some (.endKey, rest) :=
  ⟨rfl, rfl, rfl, rfl, rfl, rfl, rfl, rfl, rfl, rfl, rfl, rfl, rfl, rfl, rfl⟩

/-- C6: a read timing out is not an error: the first-byte loop of
`editorReadKey` silently retries through a timeout; and after a first byte
`ESC`, a timeout on either of the two follow-up reads makes `editorReadKey`
return the Escape key event (the lone escape byte, `Key.char 27`),
disambiguating a standalone Escape press from a multi-byte sequence. -/
theorem editorReadKey_timeout_behaviour :
    (∀ s : List ReadEvent, editorReadKey (.timeout :: s) = editorReadKey s)
    ∧ (∀ rest : List ReadEvent,
        editorReadKey (.byte 27 :: .timeout :: rest) = some (.char 27, rest))
    ∧ (∀ rest : List ReadEvent,
        editorReadKey (.byte 27 :: []) = some (.char 27, []) ∧
        editorReadKey (.byte 27 :: .byte 91 :: .timeout :: rest)
          = some (.char 27, rest))
    ∧ (∀ (b : Nat) (rest : List ReadEvent),
        editorReadKey (.byte 27 :: .byte b :: .timeout :: rest)
          = some (.char 27, rest)) :=
  ⟨fun _ => rfl, fun _ => rfl, fun _ => ⟨rfl, rfl⟩, fun b rest => by
    simp only [editorReadKey, readEscape, readByte]
    rcases Decidable.em (b = 91) with h | h <;> simp [h]⟩

/-- `struct editorConfig E` (the parts observable in this scope): cursor
position `cx`/`cy`, screen dimensions, and the row array. `numrows` is the
length of `rows`; each row's `size` is the length of its byte list. -/
structure EditorState where
  cx : Int
  cy : Int
  screenrows : Int
  screencols : Int
  rows : List (List Nat)
deriving DecidableEq

/-- `editorMoveCursor`: one-cell cursor moves, each guarded exactly as in the
C `switch` (left blocked at 0, right blocked at `screencols - 1`, up blocked
at 0, down blocked at `screenrows - 1`); all other keys fall through the
`switch` unchanged. -/
def editorMoveCursor (E : EditorState) (key : Key) : EditorState :=
  match key with
  | .arrowLeft => if E.cx ≠ 0 then {E with cx := E.cx - 1} else E
  | .arrowRight => if E.cx ≠ E.screencols - 1 then {E with cx := E.cx + 1} else E
  | .arrowUp => if E.cy ≠ 0 then {E with cy := E.cy - 1} else E
  | .arrowDown => if E.cy ≠ E.screenrows - 1 then {E with cy := E.cy + 1} else E
  | .char _ => E
  | .delKey => E
  | .homeKey => E
  | .endKey => E
  | .pageUp => E
  | .pageDown => E

/-- The `while (times--)` loop in the PageUp/PageDown case of
`editorProcessKeyPress`: apply `editorMoveCursor` with the same key `n`
times. -/
def repeatMove (E : EditorState) (key : Key) : Nat → EditorState
  | 0 => E
  | n + 1 => repeatMove (editorMoveCursor E key) key n

/-- Result of one `editorProcessKeyPress` call: either the session continues
with an updated state, or the process quits (`exit(0)` after two writes). -/
inductive StepResult where
  | cont (E : EditorState)
  | quit (writes : List (List Nat)) (status : Nat)
deriving DecidableEq

/-- `editorProcessKeyPress` applied to an already-decoded key: `CTRL_KEY('q')`
(byte 17) writes `ESC[2J` then `ESC[H` and exits with status 0; Home zeroes
the column; End sets it to `screencols - 1`; PageUp/PageDown run the arrow
move `screenrows` times; arrows move one cell; everything else (including
Delete and all other bytes) has no `case` and is a no-op. -/
def editorProcessKeyPress (E : EditorState) (c : Key) : StepResult :=
  match c with
  | .char b =>
    if b = 17 then .quit [[27, 91, 50, 74], [27, 91, 72]] 0 else .cont E
  | .homeKey => .cont {E with cx := 0}
  | .endKey => .cont {E with cx := E.screencols - 1}
  | .pageUp => .cont (repeatMove E .arrowUp E.screenrows.toNat)
  | .pageDown => .cont (repeatMove E .arrowDown E.screenrows.toNat)
  | .arrowUp => .cont (editorMoveCursor E .arrowUp)
  | .arrowDown => .cont (editorMoveCursor E .arrowDown)
  | .arrowLeft => .cont (editorMoveCursor E .arrowLeft)
  | .arrowRight => .cont (editorMoveCursor E .arrowRight)
  | .delKey => .cont E

/-- One iteration of the main loop as a state transformer: the state after
`editorProcessKeyPress` when the session continues (on quit the process
exits, so the state is left as is). -/
def sessionStep (E : EditorState) (k : Key) : EditorState :=
  match editorProcessKeyPress E k with
  | .cont E2 => E2
  | .quit _ _ => E

/-- The session state after processing a finite sequence of key events. -/
def processKeys (E : EditorState) (ks : List Key) : EditorState :=
  ks.foldl sessionStep E

/-- The key events handled by the movement part of `editorProcessKeyPress`. -/
def navKeys : List Key :=
  [.arrowUp, .arrowDown, .arrowLeft, .arrowRight, .homeKey, .endKey, .pageUp, .pageDown]

/-- The key events with a `case` in `editorProcessKeyPress` that can change
anything: quit plus the movement keys. -/
def handledKeys : List Key := .char 17 :: navKeys

theorem sessionStep_char (E : EditorState) (b : Nat) :
    sessionStep E (.char b) = E := by
  rcases Decidable.em (b = 17) with h | h <;>
    simp [sessionStep, editorProcessKeyPress, h]

theorem sessionStep_arrow (E : EditorState) :
    sessionStep E .arrowUp = editorMoveCursor E .arrowUp
    ∧ sessionStep E .arrowDown = editorMoveCursor E .arrowDown
    ∧ sessionStep E .arrowLeft = editorMoveCursor E .arrowLeft
    ∧ sessionStep E .arrowRight = editorMoveCursor E .arrowRight
    ∧ sessionStep E .homeKey = {E with cx := 0}
    ∧ sessionStep E .endKey = {E with cx := E.screencols - 1}
    ∧ sessionStep E .pageUp = repeatMove E .arrowUp E.screenrows.toNat
    ∧ sessionStep E .pageDown = repeatMove E .arrowDown E.screenrows.toNat
    ∧ sessionStep E .delKey = E :=
  ⟨rfl, rfl, rfl, rfl, rfl, rfl, rfl, rfl, rfl⟩

/-- Cursor-in-bounds invariant of the session state. -/
def CursorInv (E : EditorState) : Prop :=
  0 ≤ E.cx ∧ E.cx < E.screencols ∧ 0 ≤ E.cy ∧ E.cy < E.screenrows

theorem editorMoveCursor_inv (E : EditorState) (k : Key) (h : CursorInv E) :
    CursorInv (editorMoveCursor E k) := by
  obtain ⟨h1, h2, h3, h4⟩ := h
  cases k <;> simp only [editorMoveCursor, CursorInv] <;>
    first
      | exact ⟨h1, h2, h3, h4⟩
      | (split_ifs with hne <;> refine ⟨?_, ?_, ?_, ?_⟩ <;> dsimp only <;> omega)

theorem editorMoveCursor_frame (E : EditorState) (k : Key) :
    (editorMoveCursor E k).screenrows = E.screenrows
    ∧ (editorMoveCursor E k).screencols = E.screencols
    ∧ (editorMoveCursor E k).rows = E.rows := by
  cases k <;> simp only [editorMoveCursor] <;>
    first
      | exact ⟨rfl, rfl, rfl⟩
      | exact ⟨trivial, trivial, trivial⟩
      | (split_ifs <;> exact ⟨rfl, rfl, rfl⟩)

theorem repeatMove_inv (n : Nat) (E : EditorState) (k : Key) (h : CursorInv E) :
    CursorInv (repeatMove E k n) := by
  induction n generalizing E with
  | zero => exact h
  | succ n ih => exact ih _ (editorMoveCursor_inv E k h)

theorem repeatMove_frame (n : Nat) (E : EditorState) (k : Key) :
    (repeatMove E k n).screenrows = E.screenrows
    ∧ (repeatMove E k n).screencols = E.screencols
    ∧ (repeatMove E k n).rows = E.rows := by
  induction n generalizing E with
  | zero => exact ⟨rfl, rfl, rfl⟩
  | succ n ih =>
    obtain ⟨a, b, c⟩ := ih (editorMoveCursor E k)
    obtain ⟨a2, b2, c2⟩ := editorMoveCursor_frame E k
    exact ⟨a.trans a2, b.trans b2, c.trans c2⟩

theorem sessionStep_inv (E : EditorState) (k : Key) (h : CursorInv E) :
    CursorInv (sessionStep E k) := by
  have hinv := h
  obtain ⟨h1, h2, h3, h4⟩ := h
  cases k
  case char b => rw [sessionStep_char]; exact hinv
  case arrowUp => rw [(sessionStep_arrow E).1]; exact editorMoveCursor_inv _ _ hinv
  case arrowDown =>
    rw [(sessionStep_arrow E).2.1]; exact editorMoveCursor_inv _ _ hinv
  case arrowLeft =>
    rw [(sessionStep_arrow E).2.2.1]; exact editorMoveCursor_inv _ _ hinv
  case arrowRight =>
    rw [(sessionStep_arrow E).2.2.2.1]; exact editorMoveCursor_inv _ _ hinv
  case homeKey =>
    rw [(sessionStep_arrow E).2.2.2.2.1]
    exact ⟨le_refl 0, by dsimp only; omega, h3, h4⟩
  case endKey =>
    rw [(sessionStep_arrow E).2.2.2.2.2.1]
    refine ⟨by dsimp only; omega, by dsimp only; omega, h3, h4⟩
  case pageUp =>
    rw [(sessionStep_arrow E).2.2.2.2.2.2.1]; exact repeatMove_inv _ _ _ hinv
  case pageDown =>
    rw [(sessionStep_arrow E).2.2.2.2.2.2.2.1]; exact repeatMove_inv _ _ _ hinv
  case delKey => rw [(sessionStep_arrow E).2.2.2.2.2.2.2.2]; exact hinv

theorem sessionStep_frame (E : EditorState) (k : Key) :
    (sessionStep E k).screenrows = E.screenrows
    ∧ (sessionStep E k).screencols = E.screencols
    ∧ (sessionStep E k).rows = E.rows := by
  cases k
  case char b => rw [sessionStep_char]; exact ⟨rfl, rfl, rfl⟩
  case arrowUp => rw [(sessionStep_arrow E).1]; exact editorMoveCursor_frame _ _
  case arrowDown =>
    rw [(sessionStep_arrow E).2.1]; exact editorMoveCursor_frame _ _
  case arrowLeft =>
    rw [(sessionStep_arrow E).2.2.1]; exact editorMoveCursor_frame _ _
  case arrowRight =>
    rw [(sessionStep_arrow E).2.2.2.1]; exact editorMoveCursor_frame _ _
  case homeKey =>
    rw [(sessionStep_arrow E).2.2.2.2.1]; exact ⟨rfl, rfl, rfl⟩
  case endKey =>
    rw [(sessionStep_arrow E).2.2.2.2.2.1]; exact ⟨rfl, rfl, rfl⟩
  case pageUp =>
    rw [(sessionStep_arrow E).2.2.2.2.2.2.1]; exact repeatMove_frame _ _ _
  case pageDown =>
    rw [(sessionStep_arrow E).2.2.2.2.2.2.2.1]; exact repeatMove_frame _ _ _
  case delKey =>
    rw [(sessionStep_arrow E).2.2.2.2.2.2.2.2]; exact ⟨rfl, rfl, rfl⟩

theorem processKeys_inv (ks : List Key) (E : EditorState) (h : CursorInv E) :
    CursorInv (processKeys E ks) := by
  induction ks generalizing E with
  | nil => exact h
  | cons k ks ih => exact ih _ (sessionStep_inv E k h)

theorem processKeys_frame (ks : List Key) (E : EditorState) :
    (processKeys E ks).screenrows = E.screenrows
    ∧ (processKeys E ks).screencols = E.screencols
    ∧ (processKeys E ks).rows = E.rows := by
  induction ks generalizing E with
  | nil => exact ⟨rfl, rfl, rfl⟩
  | cons k ks ih =>
    obtain ⟨a, b, c⟩ := ih (sessionStep E k)
    obtain ⟨a2, b2, c2⟩ := sessionStep_frame E k
    exact ⟨a.trans a2, b.trans b2, c.trans c2⟩

/-- C2: starting from cursor (0,0) with `screenrows ≥ 1` and `screencols ≥ 1`,
after any finite sequence of Arrow/Home/End/PageUp/PageDown key events the
cursor stays within `[0, screencols-1] × [0, screenrows-1]`. -/
theorem processKeys_cursor_bounds
    (rows cols : Int) (buf : List (List Nat)) (ks : List Key)
    (hr : 1 ≤ rows) (hc : 1 ≤ cols) (_hnav : ∀ k ∈ ks, k ∈ navKeys) :
    0 ≤ (processKeys ⟨0, 0, rows, cols, buf⟩ ks).cx
    ∧ (processKeys ⟨0, 0, rows, cols, buf⟩ ks).cx ≤ cols - 1
    ∧ 0 ≤ (processKeys ⟨0, 0, rows, cols, buf⟩ ks).cy
    ∧ (processKeys ⟨0, 0, rows, cols, buf⟩ ks).cy ≤ rows - 1 := by
  have h0 : CursorInv ⟨0, 0, rows, cols, buf⟩ := by
    refine ⟨?_, ?_, ?_, ?_⟩ <;> dsimp only <;> omega
  obtain ⟨h1, h2, h3, h4⟩ := processKeys_inv ks _ h0
  obtain ⟨a, b, _⟩ := processKeys_frame ks (⟨0, 0, rows, cols, buf⟩ : EditorState)
  dsimp only at a b
  rw [a] at h4
  rw [b] at h2
  exact ⟨h1, by omega, h3, by omega⟩

/-- C2 witness at a concrete input. -/
theorem processKeys_cursor_bounds_witness :
    0 ≤ (processKeys ⟨0, 0, 24, 80, []⟩
          [.arrowRight, .pageDown, .endKey, .arrowUp]).cx
    ∧ (processKeys ⟨0, 0, 24, 80, []⟩
          [.arrowRight, .pageDown, .endKey, .arrowUp]).cx ≤ 80 - 1
    ∧ 0 ≤ (processKeys ⟨0, 0, 24, 80, []⟩
          [.arrowRight, .pageDown, .endKey, .arrowUp]).cy
    ∧ (processKeys ⟨0, 0, 24, 80, []⟩
          [.arrowRight, .pageDown, .endKey, .arrowUp]).cy ≤ 24 - 1 :=
  processKeys_cursor_bounds 24 80 [] [.arrowRight, .pageDown, .endKey, .arrowUp]
    (by decide) (by decide) (by decide)

theorem repeatMove_eq_processKeys_replicate
    (k : Key) (hk : ∀ e : EditorState, sessionStep e k = editorMoveCursor e k)
    (n : Nat) (E : EditorState) :
    repeatMove E k n = processKeys E (List.replicate n k) := by
  induction n generalizing E with
  | zero => rfl
  | succ n ih =>
    rw [List.replicate_succ]
    show repeatMove (editorMoveCursor E k) k n
      = processKeys (sessionStep E k) (List.replicate n k)
    rw [hk E]
    exact ih (editorMoveCursor E k)

/-- `editorMoveCursor .arrowDown` iterated `n` times moves the cursor row to
`min (cy + n) (screenrows - 1)`, provided the row starts in bounds. -/
theorem repeatMove_down (n : Nat) (E : EditorState)
    (h0 : 0 ≤ E.cy) (h1 : E.cy ≤ E.screenrows - 1) :
    repeatMove E .arrowDown n
      = {E with cy := min (E.cy + n) (E.screenrows - 1)} := by
  induction n generalizing E with
  | zero =>
    show E = {E with cy := min (E.cy + (0 : Nat)) (E.screenrows - 1)}
    have : min (E.cy + ((0 : Nat) : Int)) (E.screenrows - 1) = E.cy := by
      simp; omega
    rw [this]
  | succ n ih =>
    show repeatMove (editorMoveCursor E .arrowDown) .arrowDown n = _
    rcases Decidable.em (E.cy = E.screenrows - 1) with he | he
    · have hstep : editorMoveCursor E .arrowDown = E := by
        simp [editorMoveCursor, he]
      rw [hstep, ih E h0 h1]
      have : min (E.cy + (n : Int)) (E.screenrows - 1)
          = min (E.cy + ((n : Nat) + 1 : Nat)) (E.screenrows - 1) := by
        push_cast
        omega
      rw [this]
    · have hstep : editorMoveCursor E .arrowDown = {E with cy := E.cy + 1} := by
        simp [editorMoveCursor, he]
      rw [hstep, ih {E with cy := E.cy + 1} (by dsimp only; omega) (by dsimp only; omega)]
      dsimp only
      simp only [EditorState.mk.injEq, eq_self_iff_true, and_true, true_and]
      push_cast
      omega

/-- Once the cursor row sits at `screenrows - 1`, further PageDown events
leave the whole state unchanged. -/
theorem processKeys_pageDown_stable (m : Nat) (E : EditorState)
    (hr : 1 ≤ E.screenrows) (hcy : E.cy = E.screenrows - 1) :
    processKeys E (List.replicate m .pageDown) = E := by
  induction m generalizing E with
  | zero => rfl
  | succ m ih =>
    rw [List.replicate_succ]
    show processKeys (sessionStep E .pageDown) (List.replicate m .pageDown) = E
    have hstep : sessionStep E .pageDown = E := by
      rw [(sessionStep_arrow E).2.2.2.2.2.2.2.1,
        repeatMove_down _ _ (by omega) (by omega)]
      have : min (E.cy + (E.screenrows.toNat : Int)) (E.screenrows - 1) = E.cy := by
        omega
      rw [this]
    rw [hstep]
    exact ih E hr hcy

/-- C7: Home sets the cursor column to 0 and End sets it to
`screencols - 1`; PageUp (resp. PageDown) performs exactly the state change
of `screenrows` consecutive ArrowUp (resp. ArrowDown) events; and starting
from row 0 with `screenrows ≥ 1`, any positive number of PageDown presses
pins the cursor row at exactly `screenrows - 1` (no further). -/
theorem processKeyPress_home_end_page (E : EditorState) :
    editorProcessKeyPress E .homeKey = .cont {E with cx := 0}
    ∧ editorProcessKeyPress E .endKey = .cont {E with cx := E.screencols - 1}
    ∧ editorProcessKeyPress E .pageUp
        = .cont (processKeys E (List.replicate E.screenrows.toNat .arrowUp))
    ∧ editorProcessKeyPress E .pageDown
        = .cont (processKeys E (List.replicate E.screenrows.toNat .arrowDown))
    ∧ (1 ≤ E.screenrows → E.cy = 0 → ∀ n : Nat, 1 ≤ n →
        (processKeys E (List.replicate n .pageDown)).cy = E.screenrows - 1) := by
  refine ⟨rfl, rfl, ?_, ?_, ?_⟩
  · show StepResult.cont (repeatMove E .arrowUp E.screenrows.toNat) = _
    rw [repeatMove_eq_processKeys_replicate .arrowUp (fun _ => rfl)]
  · show StepResult.cont (repeatMove E .arrowDown E.screenrows.toNat) = _
    rw [repeatMove_eq_processKeys_replicate .arrowDown (fun _ => rfl)]
  · intro hr hcy n hn
    obtain ⟨m, rfl⟩ : ∃ m, n = m + 1 := ⟨n - 1, by omega⟩
    rw [List.replicate_succ]
    show (processKeys (sessionStep E .pageDown) (List.replicate m .pageDown)).cy = _
    have hstep : sessionStep E .pageDown = {E with cy := E.screenrows - 1} := by
      rw [(sessionStep_arrow E).2.2.2.2.2.2.2.1,
        repeatMove_down _ _ (by omega) (by omega)]
      have : min (E.cy + (E.screenrows.toNat : Int)) (E.screenrows - 1)
          = E.screenrows - 1 := by
        omega
      rw [this]
    rw [hstep, processKeys_pageDown_stable m _ (by dsimp only; omega) (by dsimp only)]

/-- C7 witness at a concrete input. -/
theorem processKeyPress_home_end_page_witness :
    (processKeys ⟨0, 0, 24, 80, []⟩ (List.replicate 3 .pageDown)).cy = 24 - 1 :=
  (processKeyPress_home_end_page ⟨0, 0, 24, 80, []⟩).2.2.2.2
    (by decide) rfl 3 (by decide)

/-- C8: the session leaves the running loop only on Ctrl+Q (byte 17): that
key makes `editorProcessKeyPress` write `ESC[2J` then `ESC[H` and exit with
status 0; every other key event continues the session, and every key event
other than Ctrl+Q, the arrows, Home, End, PageUp and PageDown leaves the
session state entirely unchanged. -/
theorem processKeyPress_quit_only (E : EditorState) :
    editorProcessKeyPress E (.char 17)
        = .quit [[27, 91, 50, 74], [27, 91, 72]] 0
    ∧ (∀ k : Key, k ≠ .char 17 →
        ∃ E2, editorProcessKeyPress E k = .cont E2)
    ∧ (∀ k : Key, k ∉ handledKeys → editorProcessKeyPress E k = .cont E) := by
  refine ⟨rfl, ?_, ?_⟩
  · intro k hk
    cases k
    case char b =>
      have hb : b ≠ 17 := by
        intro h
        exact hk (by rw [h])
      exact ⟨E, by simp [editorProcessKeyPress, hb]⟩
    all_goals exact ⟨_, rfl⟩
  · intro k hk
    cases k
    case char b =>
      have hb : b ≠ 17 := by
        intro h
        subst h
        exact hk (by simp [handledKeys])
      simp [editorProcessKeyPress, hb]
    case delKey => rfl
    all_goals exact absurd (by simp [handledKeys, navKeys]) hk

/-- C8 witness at a concrete input. -/
theorem processKeyPress_quit_only_witness :
    editorProcessKeyPress ⟨0, 0, 24, 80, []⟩ (.char 17)
        = .quit [[27, 91, 50, 74], [27, 91, 72]] 0
    ∧ editorProcessKeyPress ⟨0, 0, 24, 80, []⟩ (.char 97)
        = .cont ⟨0, 0, 24, 80, []⟩ :=
  ⟨(processKeyPress_quit_only ⟨0, 0, 24, 80, []⟩).1,
    (processKeyPress_quit_only ⟨0, 0, 24, 80, []⟩).2.2 (.char 97) (by decide)⟩

/-- Byte is a line terminator byte (`'\n'` or `'\r'`), as tested by the
stripping loop in `editorOpen`. -/
def isLineTermByte (b : Nat) : Bool := b == 10 || b == 13

/-- The stripping loop in `editorOpen`:
`while (linelen>0 && (line[linelen-1]=='\n' || line[linelen-1]=='\r')) linelen--;`
removes the maximal trailing run of `'\n'`/`'\r'` bytes. -/
def stripLineEnd (s : List Nat) : List Nat :=
  (s.reverse.dropWhile isLineTermByte).reverse

/-- `editorAppendRow`: stores the given `linelen` bytes verbatim as a new row
at index `numrows` and increments `numrows`. -/
def editorAppendRow (E : EditorState) (s : List Nat) : EditorState :=
  {E with rows := E.rows ++ [s]}

/-- One iteration of the `getline` loop in `editorOpen`: strip the trailing
terminator run from the line, then `editorAppendRow` the remainder. This is
the `appendRow(bytes)` operation of the specification. -/
def editorOpenLine (E : EditorState) (line : List Nat) : EditorState :=
  editorAppendRow E (stripLineEnd line)

/-- `editorOpen` on a pre-split list of lines (the `getline` loop). -/
def editorOpen (E : EditorState) (lines : List (List Nat)) : EditorState :=
  lines.foldl editorOpenLine E

/-- Second definition, following the specification words only (not the
source): strip a SINGLE trailing line terminator, where a terminator is
`\n`, `\r`, or both together (the `\r\n` pair). Used to compare the claim
against the code. -/
def specStripSingleTerminator (s : List Nat) : List Nat :=
  if s.reverse.take 2 = [10, 13] then s.dropLast.dropLast
  else if s.reverse.take 1 = [10] ∨ s.reverse.take 1 = [13] then s.dropLast
  else s

/-- C3 counterexample: on the input line `"a\r\r"` (`[97, 13, 13]`) the code
stores `"a"` — it strips the whole trailing run of terminator bytes — while
stripping a single trailing line terminator (`\n`, `\r`, or the `\r\n`
pair) would leave `"a\r"`. So `appendRow` does not strip just a single
trailing terminator. -/
theorem appendRow_single_terminator_counterexample :
    (editorOpenLine ⟨0, 0, 24, 80, []⟩ [97, 13, 13]).rows
      ≠ [specStripSingleTerminator [97, 13, 13]]
    ∧ (editorOpenLine ⟨0, 0, 24, 80, []⟩ [97, 13, 13]).rows = [[97]]
    ∧ specStripSingleTerminator [97, 13, 13] = [97, 13] := by
  refine ⟨by decide, by decide, by decide⟩

theorem head_dropWhile_false {α : Type} (p : α → Bool) (l : List α) :
    ∀ b ∈ (l.dropWhile p).head?, p b = false := by
  induction l with
  | nil => intro b hb; simp [List.dropWhile] at hb
  | cons a l ih =>
    intro b hb
    rw [List.dropWhile_cons] at hb
    by_cases h : p a = true
    · rw [if_pos h] at hb
      exact ih b hb
    · rw [if_neg h] at hb
      simp only [List.head?_cons, Option.mem_def, Option.some.injEq] at hb
      subst hb
      simpa using h

/-- C3 (amended): `appendRow` (the strip in `editorOpen` plus
`editorAppendRow`) strips the whole maximal trailing run of line-terminator
bytes (`\n` and `\r`, in any combination) from its input — so in particular
a lone `\n`, a lone `\r`, or a `\r\n` pair — and stores the remainder as a
new Row at the end of the sequence; on input `"hello\r\n"` it produces a Row
with content `"hello"` and length 5. -/
theorem appendRow_strips_trailing_terminator_run :
    (∀ (E : EditorState) (s : List Nat),
      (editorOpenLine E s).rows = E.rows ++ [stripLineEnd s]
      ∧ (∃ t, s = stripLineEnd s ++ t ∧ ∀ b ∈ t, b = 10 ∨ b = 13)
      ∧ (∀ b ∈ (stripLineEnd s).getLast?, ¬(b = 10 ∨ b = 13)))
    ∧ (editorOpenLine ⟨0, 0, 24, 80, []⟩ [104, 101, 108, 108, 111, 13, 10]).rows
        = [[104, 101, 108, 108, 111]]
    ∧ (stripLineEnd [104, 101, 108, 108, 111, 13, 10]).length = 5 := by
  refine ⟨fun E s => ⟨rfl, ?_, ?_⟩, by decide, by decide⟩
  · refine ⟨(s.reverse.takeWhile isLineTermByte).reverse, ?_, ?_⟩
    · conv_lhs =>
        rw [← List.reverse_reverse s,
          ← List.takeWhile_append_dropWhile isLineTermByte s.reverse]
      rw [List.reverse_append]
      rfl
    · intro b hb
      rw [List.mem_reverse] at hb
      have h := List.mem_takeWhile_imp hb
      simpa [isLineTermByte] using h
  · intro b hb
    rw [stripLineEnd, List.getLast?_reverse] at hb
    have h := head_dropWhile_false isLineTermByte s.reverse b hb
    simpa [isLineTermByte] using h

/-- C3 amended-claim witness at a concrete input. -/
theorem appendRow_strips_trailing_terminator_run_witness :
    (editorOpenLine ⟨0, 0, 24, 80, []⟩ [104, 101, 108, 108, 111, 13, 10]).rows
      = (⟨0, 0, 24, 80, []⟩ : EditorState).rows
          ++ [stripLineEnd [104, 101, 108, 108, 111, 13, 10]] :=
  (appendRow_strips_trailing_terminator_run.1 ⟨0, 0, 24, 80, []⟩
    [104, 101, 108, 108, 111, 13, 10]).1

/-- `abAppend`: append bytes to the frame accumulator (`struct abuf`). The
`realloc` failure path (silent no-op) is not modelled: allocation is assumed
to succeed. -/
def abAppend (ab : List Nat) (s : List Nat) : List Nat := ab ++ s

/-- The welcome banner produced by
`snprintf(welcome, 80, "Aniket's Editor -- version %s", KILO_VERSION)` with
`KILO_VERSION = "0.0.1"`: 32 bytes, well under the 80-byte buffer. -/
def welcomeBytes : List Nat :=
  [65, 110, 105, 107, 101, 116, 39, 115, 32, 69, 100, 105, 116, 111, 114, 32,
   45, 45, 32, 118, 101, 114, 115, 105, 111, 110, 32, 48, 46, 48, 46, 49]

/-- The welcome-banner branch of `editorDrawRows`: truncate the banner length
to `screencols`, compute `padding = (screencols - welcomelen) / 2` (C `int`
division, i.e. truncation toward zero), emit `~` consuming one padding column
when padding is nonzero, then the remaining padding as spaces, then the
banner. -/
def welcomeLine (E : EditorState) : List Nat :=
  let welcomelen : Int := if 32 > E.screencols then E.screencols else 32
  let padding : Int := (E.screencols - welcomelen).tdiv 2
  abAppend
    (if padding ≠ 0 then abAppend [126] (List.replicate (padding - 1).toNat 32)
     else [])
    (welcomeBytes.take welcomelen.toNat)

/-- The body of one iteration of the `for (y = 0; y < E.screenrows; y++)`
loop in `editorDrawRows`: past-end rows show the banner (only when the
buffer is empty and `y == E.screenrows / 3`) or a `~`; in-buffer rows show
the row truncated to `screencols`; then `ESC[K`, then `\r\n` for every row
but the last. -/
def drawRowLine (E : EditorState) (y : Nat) : List Nat :=
  abAppend
    (abAppend
      (if y ≥ E.rows.length then
        (if E.rows.length = 0 ∧ (y : Int) = E.screenrows.tdiv 3 then
          welcomeLine E
         else [126])
       else
        let len : Int :=
          if ((E.rows.getD y []).length : Int) > E.screencols then E.screencols
          else ((E.rows.getD y []).length : Int)
        (E.rows.getD y []).take len.toNat)
      [27, 91, 75])
    (if (y : Int) < E.screenrows - 1 then [13, 10] else [])

/-- `editorDrawRows`: the concatenation of the per-row output over
`y = 0 .. screenrows - 1`. -/
def editorDrawRows (E : EditorState) : List Nat :=
  ((List.range E.screenrows.toNat).map (drawRowLine E)).flatten

/-- Decimal digits (ASCII) of `n`, most significant first, with explicit
fuel so that the recursion is structural; `natDec n` runs it with enough
fuel. Models the `%d` rendering done by `snprintf`. -/
def natDecAux : Nat → Nat → List Nat
  | 0, n => [48 + n % 10]
  | f + 1, n => if n < 10 then [48 + n] else natDecAux f (n / 10) ++ [48 + n % 10]

/-- ASCII decimal rendering of a natural number. -/
def natDec (n : Nat) : List Nat := natDecAux n n

/-- ASCII decimal rendering of an integer (`snprintf` `%d`). -/
def intDec (i : Int) : List Nat :=
  if i < 0 then 45 :: natDec (-i).toNat else natDec i.toNat

/-- The `snprintf(buf, sizeof(buf), "\x1b[%d;%dH", E.cy + 1, E.cx + 1)`
cursor-positioning sequence appended by `editorRefreshScreen`. -/
def cursorSeq (E : EditorState) : List Nat :=
  [27, 91] ++ intDec (E.cy + 1) ++ [59] ++ intDec (E.cx + 1) ++ [72]

/-- The complete frame composed by `editorRefreshScreen` into its append
buffer: hide cursor, cursor home, the drawn rows, absolute cursor
positioning, show cursor. -/
def composeFrame (E : EditorState) : List Nat :=
  abAppend
    (abAppend
      (abAppend
        (abAppend
          (abAppend [] [27, 91, 63, 50, 53, 108])
          [27, 91, 72])
        (editorDrawRows E))
      (cursorSeq E))
    [27, 91, 63, 50, 53, 104]

/-- `editorRefreshScreen`: builds the frame in a local append buffer and
issues exactly one `write` of it; the editor state (a global in C) is not
assigned anywhere in the body, so it is returned unchanged. -/
def editorRefreshScreen (E : EditorState) : EditorState × List (List Nat) :=
  (E, [composeFrame E])

/-- C4: for every session state — any cursor position, dimensions and line
buffer — one `editorRefreshScreen` call performs exactly one write, of the
composed frame, and no other write. -/
theorem editorRefreshScreen_single_write (E : EditorState) :
    (editorRefreshScreen E).2 = [composeFrame E]
    ∧ ((editorRefreshScreen E).2).length = 1 :=
  ⟨rfl, rfl⟩

/-- C10: rendering is read-only on the session: `editorRefreshScreen`
(including `editorDrawRows`) leaves the cursor position, the screen
dimensions, the row count and the content of every stored row unchanged. -/
theorem editorRefreshScreen_readonly (E : EditorState) :
    (editorRefreshScreen E).1.cx = E.cx
    ∧ (editorRefreshScreen E).1.cy = E.cy
    ∧ (editorRefreshScreen E).1.screenrows = E.screenrows
    ∧ (editorRefreshScreen E).1.screencols = E.screencols
    ∧ (editorRefreshScreen E).1.rows.length = E.rows.length
    ∧ ∀ i : Nat, (editorRefreshScreen E).1.rows.getD i [] = E.rows.getD i [] :=
  ⟨rfl, rfl, rfl, rfl, rfl, fun _ => rfl⟩

/-- Second definition, following the claim's wording only: the welcome
banner truncated to `screencols`, left-padded with
`(screencols - bannerLength) / 2` columns, where a single leading `~`
consumes one padding column when the padding is at least 1. -/
def specBannerLine (E : EditorState) : List Nat :=
  let banner :=
    if (welcomeBytes.length : Int) ≤ E.screencols then welcomeBytes
    else welcomeBytes.take E.screencols.toNat
  let padding : Int := (E.screencols - banner.length).tdiv 2
  (if 1 ≤ padding then 126 :: List.replicate (padding - 1).toNat 32 else [])
    ++ banner

/-- Second definition, following the claim's wording only: what screen row
`y` of the frame must contain — the buffer row truncated to at most
`screencols` bytes when `y < rowCount`; else the centered banner on the
empty-buffer banner row; else a single `~` — followed by `ESC[K` and, for
every row but the last, a line break. -/
def specRowSegment (E : EditorState) (y : Nat) : List Nat :=
  (if y < E.rows.length then
    (if ((E.rows.getD y []).length : Int) ≤ E.screencols then E.rows.getD y []
     else (E.rows.getD y []).take E.screencols.toNat)
   else if E.rows.length = 0 ∧ (y : Int) = E.screenrows.tdiv 3 then
    specBannerLine E
   else [126])
  ++ [27, 91, 75]
  ++ (if y ≠ E.screenrows.toNat - 1 then [13, 10] else [])

theorem welcomeLine_eq_specBannerLine (E : EditorState) :
    welcomeLine E = specBannerLine E := by
  have hwl : welcomeBytes.length = 32 := rfl
  have htk : welcomeBytes.take 32 = welcomeBytes := rfl
  simp only [welcomeLine, specBannerLine, abAppend, hwl, Nat.cast_ofNat]
  by_cases h32 : (32 : Int) > E.screencols
  · rw [if_pos h32, if_neg (by omega : ¬ (32 : Int) ≤ E.screencols)]
    rw [show (E.screencols - E.screencols).tdiv 2 = 0 by rw [sub_self]; rfl]
    rw [if_neg (by omega : ¬ (0 : Int) ≠ 0), List.nil_append]
    simp only [List.length_take, hwl]
    by_cases hneg : E.screencols < 0
    · rw [show E.screencols.toNat = 0 by omega,
        show (min 0 32 : Nat) = 0 from rfl]
      have h2 : (0 : Int) ≤ (-E.screencols).tdiv 2 :=
        Int.tdiv_nonneg (by omega) (by omega)
      have h3 : (-E.screencols).tdiv 2 = -(E.screencols.tdiv 2) :=
        Int.neg_tdiv E.screencols 2
      rw [if_neg (by rw [Nat.cast_zero, sub_zero]; omega :
        ¬ (1 : Int) ≤ (E.screencols - ((0 : Nat) : Int)).tdiv 2)]
      rfl
    · rw [show min E.screencols.toNat 32 = E.screencols.toNat by omega]
      rw [show ((E.screencols.toNat : Nat) : Int) = E.screencols by omega, sub_self]
      rw [if_neg (by decide : ¬ (1 : Int) ≤ Int.tdiv 0 2), List.nil_append]
  · rw [if_neg h32, if_pos (by omega : (32 : Int) ≤ E.screencols)]
    rw [show ((32 : Int)).toNat = 32 from rfl, htk, hwl]
    have hpn : (0 : Int) ≤ (E.screencols - 32).tdiv 2 :=
      Int.tdiv_nonneg (by omega) (by omega)
    by_cases hp : (E.screencols - 32).tdiv 2 = 0
    · rw [if_neg (by omega : ¬ (E.screencols - (32 : Int)).tdiv 2 ≠ 0),
        if_neg (by push_cast; omega : ¬ (1 : Int) ≤ (E.screencols - ((32 : Nat) : Int)).tdiv 2)]
    · rw [if_pos (by omega : (E.screencols - (32 : Int)).tdiv 2 ≠ 0),
        if_pos (by push_cast; omega : (1 : Int) ≤ (E.screencols - ((32 : Nat) : Int)).tdiv 2)]
      push_cast
      rfl

/-- C5: the frame's rows section is, for every screen row `y` in
`[0, screenrows)`, exactly what the claim describes: the buffer row
truncated to at most `screencols` bytes when `y < rowCount`; else, when the
buffer is empty and `y = screenrows / 3`, the welcome banner truncated to
`screencols` and left-padded with `(screencols - bannerLength)/2` columns
(a single leading `~` consuming one padding column when padding ≥ 1); else
a single `~`; each row followed by `ESC[K`, with a line break after every
row except the last. -/
theorem editorDrawRows_spec (E : EditorState) :
    editorDrawRows E
      = ((List.range E.screenrows.toNat).map (specRowSegment E)).flatten := by
  unfold editorDrawRows
  congr 1
  apply List.map_congr_left
  intro y hy
  rw [List.mem_range] at hy
  simp only [drawRowLine, specRowSegment, abAppend]
  have hcrlf :
      (if (y : Int) < E.screenrows - 1 then ([13, 10] : List Nat) else [])
        = (if y ≠ E.screenrows.toNat - 1 then ([13, 10] : List Nat) else []) :=
    if_congr (by omega) rfl rfl
  have hcontent :
      (if y ≥ E.rows.length then
        (if E.rows.length = 0 ∧ (y : Int) = E.screenrows.tdiv 3 then
          welcomeLine E
         else [126])
       else
        (E.rows.getD y []).take
          (if ((E.rows.getD y []).length : Int) > E.screencols then E.screencols
           else ((E.rows.getD y []).length : Int)).toNat)
      = (if y < E.rows.length then
          (if ((E.rows.getD y []).length : Int) ≤ E.screencols then
            E.rows.getD y []
           else (E.rows.getD y []).take E.screencols.toNat)
         else if E.rows.length = 0 ∧ (y : Int) = E.screenrows.tdiv 3 then
          specBannerLine E
         else [126]) := by
    by_cases hge : y ≥ E.rows.length
    · rw [if_pos hge, if_neg (by omega : ¬ y < E.rows.length)]
      by_cases hb : E.rows.length = 0 ∧ (y : Int) = E.screenrows.tdiv 3
      · rw [if_pos hb, if_pos hb]
        exact welcomeLine_eq_specBannerLine E
      · rw [if_neg hb, if_neg hb]
    · rw [if_neg hge, if_pos (by omega : y < E.rows.length)]
      by_cases htr : ((E.rows.getD y []).length : Int) > E.screencols
      · rw [if_pos htr,
          if_neg (by omega : ¬ ((E.rows.getD y []).length : Int) ≤ E.screencols)]
      · rw [if_neg htr,
          if_pos (by omega : ((E.rows.getD y []).length : Int) ≤ E.screencols)]
        rw [Int.toNat_natCast, List.take_length]
  rw [hcontent, hcrlf]

/-- Whitespace in the sense of `sscanf`'s `%d` conversion (space, tab and
the other C whitespace bytes), skipped before the number. -/
def isSpaceByte (b : Nat) : Bool :=
  b == 32 || b == 9 || b == 10 || b == 11 || b == 12 || b == 13

/-- Greedy decimal-digit consumption of `sscanf` `%d` after the first digit:
accumulate digits into `acc`, stop at the first non-digit byte. -/
def parseDigitsAcc (acc : Nat) : List Nat → Nat × List Nat
  | [] => (acc, [])
  | b :: l =>
    if 48 ≤ b ∧ b ≤ 57 then parseDigitsAcc (acc * 10 + (b - 48)) l
    else (acc, b :: l)

/-- The digit part of `sscanf` `%d`: requires at least one digit. -/
def parseDigits : List Nat → Option (Nat × List Nat)
  | [] => none
  | b :: l =>
    if 48 ≤ b ∧ b ≤ 57 then some (parseDigitsAcc (b - 48) l) else none

/-- Sign handling of `sscanf` `%d` (after whitespace skipping). -/
def parseIntSigned : List Nat → Option (Int × List Nat)
  | [] => none
  | b :: r =>
    if b = 45 then (parseDigits r).map (fun p => (-(p.1 : Int), p.2))
    else if b = 43 then (parseDigits r).map (fun p => ((p.1 : Int), p.2))
    else (parseDigits (b :: r)).map (fun p => ((p.1 : Int), p.2))

/-- One `%d` conversion of `sscanf`: skip whitespace, optional sign, one or
more digits; fails when no digit follows. -/
def parseIntScan (l : List Nat) : Option (Int × List Nat) :=
  parseIntSigned (l.dropWhile isSpaceByte)

/-- `sscanf(&buf[2], "%d;%d", rows, cols)`: two `%d` conversions separated
by a literal `;`; succeeds (returns 2 in C) exactly when both numbers and
the separator are present. -/
def scanRowsCols (l : List Nat) : Option (Int × Int) :=
  match parseIntScan l with
  | none => none
  | some (r, l1) =>
    match l1 with
    | sep :: l2 =>
      if sep = 59 then
        match parseIntScan l2 with
        | none => none
        | some (c, _) => some (r, c)
      else none
    | [] => none

/-- The response-read loop of `getCursorPosition`:
`while (i < sizeof(buf)-1) { read; if fail break; if buf[i]=='R' break; i++ }`
with `sizeof(buf)-1 = 31` as fuel; collects bytes up to (not including) the
terminating `R`, stopping early on a read timeout or end of input. -/
def readResp : Nat → List ReadEvent → List Nat × List ReadEvent
  | 0, l => ([], l)
  | _ + 1, [] => ([], [])
  | _ + 1, .timeout :: r => ([], r)
  | f + 1, .byte b :: r =>
    if b = 82 then ([], r)
    else ((readResp f r).1.cons b, (readResp f r).2)

/-- The cursor-position query `ESC[6n` written by `getCursorPosition`. -/
def cpQuery : List Nat := [27, 91, 54, 110]

/-- The far-out-of-bounds cursor probe `ESC[999C ESC[999B` written by the
fallback branch of `getWindowSize`. -/
def probeSeq : List Nat := [27, 91, 57, 57, 57, 67, 27, 91, 57, 57, 57, 66]

/-- The `if (buf[0] != '\x1b' || buf[1] != '[') return -1;` check followed
by the `sscanf` call: a response shorter than two bytes cannot pass the
check (the buffer is NUL-terminated there). -/
def respParse : List Nat → Option (Int × Int)
  | b0 :: b1 :: tail => if b0 = 27 ∧ b1 = 91 then scanRowsCols tail else none
  | _ => none

/-- `getCursorPosition`: writes `ESC[6n`, reads the response up to `R`,
requires it to start `ESC [`, and parses `%d;%d` from the remainder.
Returns the parsed (rows, cols) or `none` (the C `-1`), the list of writes,
and the unconsumed input. -/
def getCursorPosition (input : List ReadEvent) :
    Option (Int × Int) × List (List Nat) × List ReadEvent :=
  let p := readResp 31 input
  (respParse p.1, [cpQuery], p.2)

/-- `getWindowSize`: the primary strategy is the `TIOCGWINSZ` ioctl, whose
outcome is the `io` argument (`none` models `ioctl == -1`); when it fails or
reports zero columns, write the probe and fall back to `getCursorPosition`.
Returns the dimensions (or `none`, the C `-1`) and the list of writes. -/
def getWindowSize (io : Option (Nat × Nat)) (input : List ReadEvent) :
    Option (Int × Int) × List (List Nat) :=
  match io with
  | none => ((getCursorPosition input).1, probeSeq :: (getCursorPosition input).2.1)
  | some (r, c) =>
    if c = 0 then
      ((getCursorPosition input).1, probeSeq :: (getCursorPosition input).2.1)
    else (some ((r : Int), (c : Int)), [])

/-- The primary window-size strategy failed: the ioctl errored out or
reported zero columns. -/
def primaryFails (io : Option (Nat × Nat)) : Prop :=
  io = none ∨ ∃ r, io = some (r, 0)

theorem natDecAux_mem (f : Nat) :
    ∀ n, n ≤ f → ∀ d ∈ natDecAux f n, 48 ≤ d ∧ d ≤ 57 := by
  induction f with
  | zero =>
    intro n hn d hd
    have h0 : n = 0 := by omega
    subst h0
    simp only [natDecAux, List.mem_singleton] at hd
    omega
  | succ f ih =>
    intro n hn d hd
    by_cases h10 : n < 10
    · simp only [natDecAux, if_pos h10, List.mem_singleton] at hd
      omega
    · simp only [natDecAux, if_neg h10, List.mem_append,
        List.mem_singleton] at hd
      rcases hd with hd | hd
      · exact ih (n / 10) (by omega) d hd
      · omega

theorem natDecAux_ne_nil (f n : Nat) : natDecAux f n ≠ [] := by
  cases f with
  | zero => simp [natDecAux]
  | succ f =>
    by_cases h10 : n < 10 <;> simp [natDecAux, h10]

theorem parseDigitsAcc_stop (acc : Nat) (rest : List Nat)
    (h : ∀ b ∈ rest.head?, ¬(48 ≤ b ∧ b ≤ 57)) :
    parseDigitsAcc acc rest = (acc, rest) := by
  cases rest with
  | nil => rfl
  | cons b l =>
    have hb := h b (by simp)
    simp [parseDigitsAcc, hb]

theorem parseDigitsAcc_natDecAux (f : Nat) :
    ∀ n, n ≤ f → ∀ (acc : Nat) (rest : List Nat),
    parseDigitsAcc acc (natDecAux f n ++ rest)
      = parseDigitsAcc (acc * 10 ^ (natDecAux f n).length + n) rest := by
  induction f with
  | zero =>
    intro n hn acc rest
    have h0 : n = 0 := by omega
    subst h0
    simp [natDecAux, parseDigitsAcc]
  | succ f ih =>
    intro n hn acc rest
    by_cases h10 : n < 10
    · simp only [natDecAux, if_pos h10, List.singleton_append,
        List.length_singleton, pow_one]
      have hd : 48 ≤ 48 + n ∧ 48 + n ≤ 57 := by omega
      rw [parseDigitsAcc, if_pos hd]
      have : acc * 10 + (48 + n - 48) = acc * 10 + n := by omega
      rw [this]
    · simp only [natDecAux, if_neg h10, List.append_assoc,
        List.singleton_append, List.length_append, List.length_singleton]
      rw [ih (n / 10) (by omega)]
      have hd : 48 ≤ 48 + n % 10 ∧ 48 + n % 10 ≤ 57 := by omega
      rw [parseDigitsAcc, if_pos hd]
      have harith :
          (acc * 10 ^ (natDecAux f (n / 10)).length + n / 10) * 10
              + (48 + n % 10 - 48)
            = acc * 10 ^ ((natDecAux f (n / 10)).length + 1) + n := by
        rw [pow_succ]
        have := Nat.div_add_mod n 10
        ring_nf
        omega
      rw [harith]

theorem parseDigits_natDec (n : Nat) (rest : List Nat)
    (h : ∀ b ∈ rest.head?, ¬(48 ≤ b ∧ b ≤ 57)) :
    parseDigits (natDec n ++ rest) = some (n, rest) := by
  obtain ⟨d, t, hdt⟩ := List.exists_cons_of_ne_nil (natDecAux_ne_nil n n)
  have hd : 48 ≤ d ∧ d ≤ 57 := by
    refine natDecAux_mem n n le_rfl d ?_
    rw [hdt]
    exact List.mem_cons_self d t
  have h1 : parseDigitsAcc 0 (natDec n ++ rest) = (n, rest) := by
    rw [natDec, parseDigitsAcc_natDecAux n n le_rfl 0 rest, Nat.zero_mul,
      Nat.zero_add]
    exact parseDigitsAcc_stop n rest h
  rw [natDec, hdt, List.cons_append] at h1
  rw [parseDigitsAcc, if_pos hd] at h1
  rw [show 0 * 10 + (d - 48) = d - 48 by omega] at h1
  rw [natDec, hdt, List.cons_append, parseDigits, if_pos hd, h1]

theorem parseIntScan_natDec (n : Nat) (rest : List Nat)
    (h : ∀ b ∈ rest.head?, ¬(48 ≤ b ∧ b ≤ 57)) :
    parseIntScan (natDec n ++ rest) = some ((n : Int), rest) := by
  obtain ⟨d, t, hdt⟩ := List.exists_cons_of_ne_nil (natDecAux_ne_nil n n)
  have hd : 48 ≤ d ∧ d ≤ 57 := by
    refine natDecAux_mem n n le_rfl d ?_
    rw [hdt]
    exact List.mem_cons_self d t
  have hdrop : (natDec n ++ rest).dropWhile isSpaceByte
      = d :: (t ++ rest) := by
    rw [natDec, hdt, List.cons_append, List.dropWhile_cons,
      if_neg (by simp [isSpaceByte]; omega)]
  rw [parseIntScan, hdrop, parseIntSigned,
    if_neg (by omega : ¬ d = 45), if_neg (by omega : ¬ d = 43),
    ← List.cons_append, show d :: t = natDec n by rw [natDec, hdt],
    parseDigits_natDec n rest h]
  rfl

theorem readResp_bytes (l : List Nat) :
    ∀ (f : Nat) (rest : List ReadEvent), l.length < f →
    (∀ b ∈ l, b ≠ 82) →
    readResp f (l.map ReadEvent.byte ++ .byte 82 :: rest) = (l, rest) := by
  induction l with
  | nil =>
    intro f rest hf _
    cases f with
    | zero => omega
    | succ f => simp [readResp]
  | cons b l ih =>
    intro f rest hf hne
    cases f with
    | zero => simp at hf
    | succ f =>
      have hb : b ≠ 82 := hne b (List.mem_cons_self b l)
      simp only [List.map_cons, List.cons_append, readResp, if_neg hb,
        List.append_eq]
      rw [ih f rest (by simpa using hf)
        (fun x hx => hne x (List.mem_cons_of_mem b hx))]

theorem getCursorPosition_parses (row col : Nat) (rest : List ReadEvent)
    (hlen : (natDec row).length + (natDec col).length ≤ 27) :
    getCursorPosition
        ((27 :: 91 :: (natDec row ++ 59 :: natDec col)).map ReadEvent.byte
          ++ .byte 82 :: rest)
      = (some ((row : Int), (col : Int)), [cpQuery], rest) := by
  have hne : ∀ b ∈ 27 :: 91 :: (natDec row ++ 59 :: natDec col), b ≠ 82 := by
    intro b hb
    simp only [List.mem_cons, List.mem_append] at hb
    rcases hb with rfl | rfl | hA | rfl | hB
    · omega
    · omega
    · have := natDecAux_mem row row le_rfl b hA
      omega
    · omega
    · have := natDecAux_mem col col le_rfl b hB
      omega
  have hlen2 : (27 :: 91 :: (natDec row ++ 59 :: natDec col)).length < 31 := by
    simp only [List.length_cons, List.length_append]
    omega
  have hrr := readResp_bytes _ 31 rest hlen2 hne
  have h1 : parseIntScan (natDec row ++ 59 :: natDec col)
      = some ((row : Int), 59 :: natDec col) := by
    refine parseIntScan_natDec row _ ?_
    intro b hb
    simp only [List.head?_cons, Option.mem_def, Option.some.injEq] at hb
    omega
  have h2 : parseIntScan (natDec col) = some ((col : Int), []) := by
    have h3 := parseIntScan_natDec col [] (by intro b hb; simp at hb)
    rwa [List.append_nil] at h3
  simp only [getCursorPosition, hrr, respParse]
  simp only [scanRowsCols, h1, h2]
  simp

/-- C9: `getWindowSize` uses the fallback strategy exactly when the primary
`TIOCGWINSZ` query fails or reports zero columns; the fallback writes the
`ESC[999C ESC[999B` probe followed by the `ESC[6n` cursor-position query and
returns `getCursorPosition`'s answer, which parses a response of the form
`ESC [ <row> ; <col> R` into the two integers; and `getWindowSize` fails
(the C `-1`) if and only if both strategies fail. -/
theorem getWindowSize_spec (io : Option (Nat × Nat)) (input : List ReadEvent) :
    ((getWindowSize io input).2 ≠ [] ↔ primaryFails io)
    ∧ (primaryFails io →
        (getWindowSize io input).2 = [probeSeq, cpQuery]
        ∧ (getWindowSize io input).1 = (getCursorPosition input).1)
    ∧ (∀ r c : Nat, io = some (r, c) → c ≠ 0 →
        getWindowSize io input = (some ((r : Int), (c : Int)), []))
    ∧ ((getWindowSize io input).1 = none ↔
        primaryFails io ∧ (getCursorPosition input).1 = none)
    ∧ (∀ (row col : Nat) (rest : List ReadEvent),
        (natDec row).length + (natDec col).length ≤ 27 →
        (getCursorPosition
            ((27 :: 91 :: (natDec row ++ 59 :: natDec col)).map ReadEvent.byte
              ++ .byte 82 :: rest)).1 = some ((row : Int), (col : Int))
        ∧ (getCursorPosition
            ((27 :: 91 :: (natDec row ++ 59 :: natDec col)).map ReadEvent.byte
              ++ .byte 82 :: rest)).2.2 = rest) := by
  refine ⟨?_, ?_, ?_, ?_, fun row col rest hl => ?_⟩
  · rcases io with _ | ⟨r, c⟩
    · simp [getWindowSize, primaryFails]
    · by_cases hc : c = 0 <;>
        simp [getWindowSize, primaryFails, hc]
  · intro hpf
    rcases io with _ | ⟨r, c⟩
    · exact ⟨rfl, rfl⟩
    · have hc : c = 0 := by
        rcases hpf with h | ⟨r2, h⟩
        · exact absurd h (by simp)
        · simp only [Option.some.injEq, Prod.mk.injEq] at h
          exact h.2
      subst hc
      exact ⟨rfl, rfl⟩
  · intro r c hio hc
    subst hio
    simp [getWindowSize, hc]
  · rcases io with _ | ⟨r, c⟩
    · simp [getWindowSize, primaryFails]
    · by_cases hc : c = 0 <;>
        simp [getWindowSize, primaryFails, hc]
  · rw [getCursorPosition_parses row col rest hl]
    exact ⟨rfl, rfl⟩

/-- C9 witness at a concrete input: the ioctl fails (`none`) and the
terminal answers `ESC [ 2 4 ; 8 0 R`. -/
theorem getWindowSize_spec_witness :
    (getCursorPosition
        ((27 :: 91 :: (natDec 24 ++ 59 :: natDec 80)).map ReadEvent.byte
          ++ .byte 82 :: [])).1 = some ((24 : Int), (80 : Int))
    ∧ (getCursorPosition
        ((27 :: 91 :: (natDec 24 ++ 59 :: natDec 80)).map ReadEvent.byte
          ++ .byte 82 :: [])).2.2 = [] :=
  (getWindowSize_spec none []).2.2.2.2 24 80 [] (by decide)

end Kilo
